import Mathlib

/-!
Verification development for the evocable audiobook playback core.

The virtual-timeline mapper (`VirtualTimelineManager`, src/unnamed/part_009)
is embedded as pure functions over rational times: `initialize`,
`calculateCumulativeOffsets`, `getChunkPosition`, `getVirtualTime`,
`isNearChunkEnd`.  The dual-element streamer (`AudioStreamer`,
src/src/lib/audio-streamer.ts) is embedded as explicit state passing over
`StreamerState`, with network effects (signed-URL generation, fetch,
`Date.now()`) supplied by an oracle `Env`; fallible operations return
`Except`.  JavaScript numbers are modelled by `Rat` (the code performs only
field arithmetic and comparisons on them), and array indexing by `List.getD`
at indices proved in bounds.
-/

namespace Evocable

/-- Input chunk record as delivered by the metadata API
(`{ seq, duration_s, url }`). -/
structure ChunkIn where
  seq : Int
  duration_s : Rat
  url : String
deriving DecidableEq

/-- Result of `getChunkPosition` (interface `ChunkPosition` in the source). -/
structure ChunkPosition where
  chunkIndex : Nat
  localTime : Rat
deriving DecidableEq

/-- State of a `VirtualTimelineManager` after `initialize`. -/
structure Timeline where
  chunkDurations : List Rat
  chunkOffsets : List Rat
  totalDuration : Rat
deriving DecidableEq

/-- `calculateCumulativeOffsets`: `offsets[0] = 0`,
`offsets[i+1] = offsets[i] + durations[i]` for `i < n - 1`
(the source loop pushes one offset per duration except the last). -/
def calculateCumulativeOffsets (durations : List Rat) : List Rat :=
  List.scanl (· + ·) 0 durations.dropLast

/-- The source sorts the chunks with `sort((a, b) => a.seq - b.seq)`,
a stable comparison sort on `seq`; modelled by a stable sort on `seq ≤`. -/
def sortBySeq (chunks : List ChunkIn) : List ChunkIn :=
  List.insertionSort (fun a b => a.seq ≤ b.seq) chunks

/-- `VirtualTimelineManager.initialize`: sorts by sequence, extracts the
duration table, builds the cumulative offsets, and sets
`totalDuration = offsets[n-1] + durations[n-1]`.  The source performs no
validation of the input whatsoever. -/
def initTimeline (chunks : List ChunkIn) : Timeline :=
  let sorted := sortBySeq chunks
  let durs := sorted.map (fun c => c.duration_s)
  let offs := calculateCumulativeOffsets durs
  { chunkDurations := durs
    chunkOffsets := offs
    totalDuration := offs.getLast?.getD 0 + durs.getLast?.getD 0 }

/-- The search loop of `getChunkPosition`, over the list of
`(chunkStart, chunkDuration)` pairs, carrying the loop index `i`:
returns the first chunk with `chunkStart ≤ t < chunkStart + duration`. -/
def findChunkAux : List (Rat × Rat) → Nat → Rat → Option ChunkPosition
  | [], _, _ => none
  | (chunkStart, dur) :: rest, i, t =>
    if chunkStart ≤ t ∧ t < chunkStart + dur then
      some ⟨i, t - chunkStart⟩
    else
      findChunkAux rest (i + 1) t

/-- `VirtualTimelineManager.getChunkPosition`: clamps the virtual time to
`[0, totalDuration]`, scans for the containing half-open chunk interval,
and falls back to the last chunk at its full duration. -/
def getChunkPosition (tl : Timeline) (virtualTime : Rat) : ChunkPosition :=
  match findChunkAux (tl.chunkOffsets.zip tl.chunkDurations) 0
      (max 0 (min virtualTime tl.totalDuration)) with
  | some p => p
  | none =>
    ⟨tl.chunkDurations.length - 1,
      tl.chunkDurations.getD (tl.chunkDurations.length - 1) 0⟩

/-- `VirtualTimelineManager.getVirtualTime`: returns `0` for an out-of-range
chunk index, otherwise clamps the local time to `[0, duration]` and adds the
chunk offset. -/
def getVirtualTime (tl : Timeline) (chunkIndex : Int) (localTime : Rat) : Rat :=
  if chunkIndex < 0 ∨ (tl.chunkOffsets.length : Int) ≤ chunkIndex then 0
  else
    tl.chunkOffsets.getD chunkIndex.toNat 0 +
      max 0 (min localTime (tl.chunkDurations.getD chunkIndex.toNat 0))

/-- `VirtualTimelineManager.isNearChunkEnd`: true iff the remaining time in
the chunk containing `virtualTime` is at most the threshold. -/
def isNearChunkEnd (tl : Timeline) (virtualTime thresholdSeconds : Rat) : Bool :=
  decide (tl.chunkDurations.getD (getChunkPosition tl virtualTime).chunkIndex 0 -
    (getChunkPosition tl virtualTime).localTime ≤ thresholdSeconds)

/-- Well-formedness of an initialized timeline: at least one chunk, positive
durations (the data-model invariant for chunk metadata), offsets built by
`calculateCumulativeOffsets`, and `totalDuration` the sum of the durations. -/
def Wf (tl : Timeline) : Prop :=
  tl.chunkDurations ≠ [] ∧
  (∀ d ∈ tl.chunkDurations, 0 < d) ∧
  tl.chunkOffsets = calculateCumulativeOffsets tl.chunkDurations ∧
  tl.totalDuration = tl.chunkDurations.sum

/-- `chained b ps`: the `(start, duration)` pairs `ps` tile the timeline
contiguously starting at `b`. -/
def chained : Rat → List (Rat × Rat) → Prop
  | _, [] => True
  | b, (s, d) :: rest => s = b ∧ chained (b + d) rest

/-- Total duration of a `(start, duration)` pair list. -/
def sumD (ps : List (Rat × Rat)) : Rat := (ps.map Prod.snd).sum

/-- Concrete two-chunk timeline with durations `[3.14, 3.14]`
(as exact rationals `157/50`), used as the witness timeline. -/
def tl2 : Timeline :=
  { chunkDurations := [157/50, 157/50]
    chunkOffsets := [0, 157/50]
    totalDuration := 157/25 }

/-- Concrete one-chunk timeline with duration `3.14` (`157/50`). -/
def tl1c : Timeline :=
  { chunkDurations := [157/50]
    chunkOffsets := [0]
    totalDuration := 157/50 }

/-- The error the spec assigns to malformed chunk metadata. -/
inductive InvalidTimelineError where
  | invalidTimeline
deriving DecidableEq

/-- The source `initialize` (src/unnamed/part_009, lines 17-43) has no
failure path at all; it is wrapped in `Except` so the spec's failure contract
can be stated against it. -/
def initTimelineE (chunks : List ChunkIn) : Except InvalidTimelineError Timeline :=
  .ok (initTimeline chunks)

/-- Modelled from the spec: the validation `initialize` is specified to
perform (spec section 4.1) — sequences contiguous from 0 after sorting and
all durations positive.  The source contains no such check; this definition
exists only to compare the contract with `initTimelineE`. -/
def validChunks (chunks : List ChunkIn) : Prop :=
  (sortBySeq chunks).map (fun c => c.seq) =
    (List.range chunks.length).map (fun n => (n : Int)) ∧
  ∀ c ∈ chunks, 0 < c.duration_s

instance (chunks : List ChunkIn) : Decidable (validChunks chunks) := by
  unfold validChunks
  infer_instance

/-- Modelled from the spec: `initialize` as specified, failing with
`InvalidTimelineError` on invalid input. -/
def initTimelineSpec (chunks : List ChunkIn) :
    Except InvalidTimelineError Timeline :=
  if validChunks chunks then .ok (initTimeline chunks)
  else .error .invalidTimeline

/-- A chunk list with a non-positive duration, which the spec says must be
rejected. -/
def badChunks : List ChunkIn := [⟨0, -1, "u"⟩]

/-!
Embedding of `AudioStreamer` (src/src/lib/audio-streamer.ts).

The class fields become `StreamerState`; the JavaScript `Map`s become
association lists; `HTMLAudioElement`s become `Option AudioEl`; the book is
represented by its chunk count (the streamer only reads `chunks.length` and
nullness).  Asynchronous effects are an oracle `Env`: `Date.now()`, the
batched signed-URL API call, and `fetch`+`blob`+`createObjectURL` collapsed
to a blob-URL result.  Each method is a function from state (and oracle) to
state, paired with an `Except` describing what it throws to the caller.
-/

/-- Errors thrown by streamer operations. -/
inductive StreamErr where
  | notInitialized
  | invalidChunkIndex (i : Int)
  | network (msg : String)
deriving DecidableEq

/-- Oracle for the streamer's external effects. -/
structure Env where
  now : Int
  sign : List Nat → Except StreamErr (List (Nat × String) × Int)
  fetch : String → Except StreamErr String

/-- JavaScript `Map` keyed by chunk index, as an association list. -/
def mapSet {α : Type} (m : List (Nat × α)) (k : Nat) (v : α) : List (Nat × α) :=
  (k, v) :: m.filter (fun p => p.1 != k)

def mapGet {α : Type} (m : List (Nat × α)) (k : Nat) : Option α :=
  m.lookup k

/-- An `HTMLAudioElement` as the streamer observes it. -/
structure AudioEl where
  src : String
  currentTime : Rat
deriving DecidableEq

/-- The mutable fields of `AudioStreamer`. -/
structure StreamerState where
  book : Option Nat
  currentChunk : Nat
  primaryAudio : Option AudioEl
  secondaryAudio : Option AudioEl
  activePrimary : Bool
  virtualTimeline : Timeline
  isTransitioning : Bool
  transitionThreshold : Rat
  chunkCache : List (Nat × String)
  signedUrls : List (Nat × String)
  urlExpirationTime : List (Nat × Int)
  prefetchSize : Nat
  isInitialized : Bool
  preloadQueue : List Nat
  preloadPromises : List Nat

/-- `AudioStreamer.generateSignedUrls`: one batched API call; on success the
URL and expiration maps are updated for every returned index with
`expirationTime = Date.now() + expires_in * 1000 - 60000`; on failure the
error is reported and rethrown with the state unchanged. -/
def generateSignedUrls (s : StreamerState) (env : Env) (chunkIndices : List Nat) :
    StreamerState × Except StreamErr Unit :=
  match env.sign chunkIndices with
  | .error e => (s, .error e)
  | .ok res =>
    (res.1.foldl (fun acc kv =>
      { acc with
        signedUrls := mapSet acc.signedUrls kv.1 kv.2
        urlExpirationTime :=
          mapSet acc.urlExpirationTime kv.1 (env.now + res.2 * 1000 - 60000) }) s,
     .ok ())

/-- The staleness test `AudioStreamer` applies to upcoming chunks before
regenerating their URLs (missing, or within the 5-minute buffer of expiry:
`Date.now() >= expirationTime - 300000`). -/
def staleForPrefetch (s : StreamerState) (env : Env) (c : Nat) : Bool :=
  match mapGet s.signedUrls c, mapGet s.urlExpirationTime c with
  | some _, some exp => decide (exp - 300000 ≤ env.now)
  | _, _ => true

/-- The batch `getChunkUrl` regenerates when the requested URL is missing or
expired: the chunk itself plus every stale in-range chunk of the prefetch
window. -/
def regenUrlList (s : StreamerState) (env : Env) (chunkIndex : Nat) : List Nat :=
  chunkIndex ::
    ((List.range s.prefetchSize).map (fun j => chunkIndex + j + 1)).filter
      (fun c =>
        match s.book with
        | some n => decide (c < n) && staleForPrefetch s env c
        | none => false)

/-- The regeneration path of `getChunkUrl`: one batched URL generation, then
a second lookup, failing if the requested chunk is still missing. -/
def getChunkUrlRegen (s : StreamerState) (env : Env) (chunkIndex : Nat) :
    StreamerState × Except StreamErr String :=
  match generateSignedUrls s env (regenUrlList s env chunkIndex) with
  | (s1, .error e) => (s1, .error e)
  | (s1, .ok _) =>
    match mapGet s1.signedUrls chunkIndex with
    | some url => (s1, .ok url)
    | none => (s1, .error (.network "Failed to get signed URL"))

/-- `AudioStreamer.getChunkUrl`: returns a cached signed URL if still valid
(`Date.now() < expirationTime`), otherwise regenerates URLs for this chunk
plus any stale chunks in the prefetch window, and fails if the requested
chunk is still missing afterwards. -/
def getChunkUrl (s : StreamerState) (env : Env) (chunkIndex : Nat) :
    StreamerState × Except StreamErr String :=
  match mapGet s.signedUrls chunkIndex, mapGet s.urlExpirationTime chunkIndex with
  | some url, some exp =>
    if env.now < exp then (s, .ok url)
    else getChunkUrlRegen s env chunkIndex
  | _, _ => getChunkUrlRegen s env chunkIndex

/-- One iteration of `AudioStreamer.prefetchChunks`: skip cached chunks;
otherwise resolve a URL and fetch the payload, caching the blob URL; any
failure is caught and logged — prefetching failures never stop playback. -/
def prefetchChunkStep (env : Env) (s : StreamerState) (chunkIndex : Nat) :
    StreamerState :=
  match mapGet s.chunkCache chunkIndex with
  | some _ => s
  | none =>
    match getChunkUrl s env chunkIndex with
    | (s1, .error _) => s1
    | (s1, .ok url) =>
      match env.fetch url with
      | .error _ => s1
      | .ok blobUrl =>
        { s1 with chunkCache := mapSet s1.chunkCache chunkIndex blobUrl }

/-- `AudioStreamer.prefetchChunks` over a list of chunk indices (the source
runs them in parallel under `Promise.allSettled`; the per-chunk effects are
independent cache insertions, modelled sequentially). -/
def prefetchChunks (s : StreamerState) (env : Env) (chunkIndices : List Nat) :
    StreamerState :=
  chunkIndices.foldl (prefetchChunkStep env) s

/-- The in-range window `currentChunk + 1 .. currentChunk + prefetchSize`
scanned by `prefetchUpcoming`. -/
def upcomingWindow (s : StreamerState) (currentChunk n : Nat) : List Nat :=
  ((List.range s.prefetchSize).map (fun j => currentChunk + j + 1)).filter
    (fun c => decide (c < n))

/-- `AudioStreamer.prefetchUpcoming`: computes the in-range prefetch window,
regenerates stale signed URLs first, then downloads; a failed URL generation
is caught and prefetching continues with the chunks whose URLs exist. -/
def prefetchUpcoming (s : StreamerState) (env : Env) (currentChunk : Nat) :
    StreamerState :=
  match s.book with
  | none => s
  | some n =>
    if ((upcomingWindow s currentChunk n).filter (staleForPrefetch s env)).isEmpty then
      prefetchChunks s env (upcomingWindow s currentChunk n)
    else
      match generateSignedUrls s env
          ((upcomingWindow s currentChunk n).filter (staleForPrefetch s env)) with
      | (s1, .ok _) => prefetchChunks s1 env (upcomingWindow s currentChunk n)
      | (s1, .error _) =>
        prefetchChunks s1 env ((upcomingWindow s currentChunk n).filter
          (fun c => (mapGet s1.signedUrls c).isSome))

/-- Observer callbacks fired by the streamer (only `onChunkChange` matters to
the claims). -/
inductive Event where
  | chunkChange (chunkIndex : Nat)
deriving DecidableEq

/-- The `try` body of `loadChunk` that obtains a playable URL: the cached
blob URL if present, otherwise resolve a signed URL and download the payload,
caching the resulting blob URL. -/
def loadChunkFetch (s : StreamerState) (env : Env) (i : Nat) :
    StreamerState × Except StreamErr String :=
  match mapGet s.chunkCache i with
  | some url => (s, .ok url)
  | none =>
    match getChunkUrl s env i with
    | (s1, .error e) => (s1, .error e)
    | (s1, .ok signedUrl) =>
      match env.fetch signedUrl with
      | .error e => (s1, .error e)
      | .ok blobUrl =>
        ({ s1 with chunkCache := mapSet s1.chunkCache i blobUrl }, .ok blobUrl)

/-- `AudioStreamer.loadChunk`: throws when uninitialized or out of range;
otherwise produces a playable blob URL (from cache, or by resolving and
downloading), and only then assigns `currentChunk`, fires `onChunkChange`,
and kicks off `prefetchUpcoming`.  On any failure the error is rethrown. -/
def loadChunk (s : StreamerState) (env : Env) (chunkIndex : Int) :
    StreamerState × List Event × Except StreamErr String :=
  match s.book, s.isInitialized with
  | none, _ => (s, [], .error .notInitialized)
  | some _, false => (s, [], .error .notInitialized)
  | some n, true =>
    if chunkIndex < 0 ∨ (n : Int) ≤ chunkIndex then
      (s, [], .error (.invalidChunkIndex chunkIndex))
    else
      match loadChunkFetch s env chunkIndex.toNat with
      | (s1, .error e) => (s1, [], .error e)
      | (s1, .ok url) =>
        (prefetchUpcoming { s1 with currentChunk := chunkIndex.toNat } env
          chunkIndex.toNat,
         [.chunkChange chunkIndex.toNat], .ok url)

def getActiveAudio (s : StreamerState) : Option AudioEl :=
  if s.activePrimary then s.primaryAudio else s.secondaryAudio

/-- `activeAudio.currentTime = localTime` on the active element, when it
exists. -/
def setActiveAudioTime (s : StreamerState) (t : Rat) : StreamerState :=
  match getActiveAudio s with
  | none => s
  | some a =>
    if s.activePrimary then { s with primaryAudio := some { a with currentTime := t } }
    else { s with secondaryAudio := some { a with currentTime := t } }

/-- `AudioStreamer.seekToVirtualTime`: throws when uninitialized; maps the
virtual time, loads the target chunk if it differs from the current one
(propagating its failure), then sets the active element's local time.
It never touches `isTransitioning`. -/
def seekToVirtualTime (s : StreamerState) (env : Env) (virtualTime : Rat) :
    StreamerState × Except StreamErr Unit :=
  if ¬ s.isInitialized then (s, .error .notInitialized)
  else if (getChunkPosition s.virtualTimeline virtualTime).chunkIndex ≠ s.currentChunk then
    match loadChunk s env
        ((getChunkPosition s.virtualTimeline virtualTime).chunkIndex : Int) with
    | (s1, _, .error e) => (s1, .error e)
    | (s1, _, .ok _) =>
      (setActiveAudioTime s1
        (getChunkPosition s.virtualTimeline virtualTime).localTime, .ok ())
  else
    (setActiveAudioTime s
      (getChunkPosition s.virtualTimeline virtualTime).localTime, .ok ())

/-- `AudioStreamer.cleanup`: pauses and detaches both audio elements, revokes
and clears every cache, and resets the playback state unconditionally. -/
def cleanup (s : StreamerState) : StreamerState :=
  { s with
    primaryAudio := none
    secondaryAudio := none
    chunkCache := []
    signedUrls := []
    urlExpirationTime := []
    preloadQueue := []
    preloadPromises := []
    book := none
    isInitialized := false
    isTransitioning := false
    currentChunk := 0
    activePrimary := true }

/-- The streamer fields the resolver/prefetch paths never touch: they write
only the URL/blob caches. -/
def CorePreserved (s t : StreamerState) : Prop :=
  t.book = s.book ∧ t.currentChunk = s.currentChunk ∧
  t.primaryAudio = s.primaryAudio ∧ t.secondaryAudio = s.secondaryAudio ∧
  t.activePrimary = s.activePrimary ∧ t.virtualTimeline = s.virtualTimeline ∧
  t.isTransitioning = s.isTransitioning ∧ t.isInitialized = s.isInitialized ∧
  t.prefetchSize = s.prefetchSize

/-- An oracle in which every network operation fails. -/
def envFail : Env :=
  { now := 0
    sign := fun _ => .error (.network "offline")
    fetch := fun _ => .error (.network "offline") }

/-- An initialized one-chunk streamer caught mid-transition
(`isTransitioning = true`), about to receive a seek. -/
def sSeek : StreamerState :=
  { book := some 1
    currentChunk := 0
    primaryAudio := some ⟨"blob:0", 5⟩
    secondaryAudio := none
    activePrimary := true
    virtualTimeline := tl1c
    isTransitioning := true
    transitionThreshold := 1
    chunkCache := [(0, "blob:0")]
    signedUrls := []
    urlExpirationTime := []
    prefetchSize := 5
    isInitialized := true
    preloadQueue := []
    preloadPromises := [] }

/-- An uninitialized streamer state (no book loaded). -/
def sBlank : StreamerState :=
  { book := none
    currentChunk := 3
    primaryAudio := none
    secondaryAudio := none
    activePrimary := true
    virtualTimeline := tl1c
    isTransitioning := false
    transitionThreshold := 1
    chunkCache := []
    signedUrls := []
    urlExpirationTime := []
    prefetchSize := 5
    isInitialized := false
    preloadQueue := []
    preloadPromises := [] }

/-! ### Theorems -/

theorem sumD_nil : sumD [] = 0 := rfl

theorem sumD_cons (p : Rat × Rat) (ps : List (Rat × Rat)) :
    sumD (p :: ps) = p.2 + sumD ps := by
  simp [sumD]

theorem sumD_nonneg {ps : List (Rat × Rat)} (h : ∀ p ∈ ps, 0 < p.2) :
    0 ≤ sumD ps := by
  induction ps with
  | nil => simp [sumD]
  | cons p ps ih =>
    rw [sumD_cons]
    have hp := h p (List.mem_cons_self p ps)
    have hps : 0 ≤ sumD ps := ih (fun q hq => h q (List.mem_cons_of_mem p hq))
    linarith

/-- The offsets produced by `calculateCumulativeOffsets` zip with the
durations into a contiguous tiling starting at the base offset. -/
theorem chained_scanl_zip (durs : List Rat) :
    ∀ b : Rat, chained b ((List.scanl (· + ·) b durs.dropLast).zip durs) := by
  induction durs with
  | nil => intro b; simp [chained]
  | cons d rest ih =>
    intro b
    cases rest with
    | nil => simp [chained]
    | cons e rs =>
      have hdl : (d :: e :: rs).dropLast = d :: (e :: rs).dropLast := by
        simp [List.dropLast]
      rw [hdl, List.scanl_cons]
      simpa [chained] using ih (b := b + d)

theorem chained_getElem_zero {b : Rat} {ps : List (Rat × Rat)}
    (hch : chained b ps) (h : 0 < ps.length) : (ps[0]).1 = b := by
  cases ps with
  | nil => exact absurd h (by simp)
  | cons p rest =>
    obtain ⟨s, d⟩ := p
    simpa using hch.1

theorem chained_getElem_fst_ge (ps : List (Rat × Rat)) :
    ∀ (b : Rat) (j : Nat) (hj : j < ps.length), chained b ps →
      (∀ p ∈ ps, 0 < p.2) → b ≤ (ps[j]).1 := by
  induction ps with
  | nil => intro b j hj; exact absurd hj (by simp)
  | cons p rest ih =>
    intro b j hj hch hpos
    obtain ⟨s, d⟩ := p
    obtain ⟨hs, hch2⟩ := hch
    cases j with
    | zero => simpa using hs.ge
    | succ j =>
      have hd : 0 < d := hpos (s, d) (List.mem_cons_self _ _)
      have hj2 : j < rest.length := by simpa using hj
      have hrec := ih (b + d) j hj2 hch2
        (fun q hq => hpos q (List.mem_cons_of_mem _ hq))
      simp only [List.getElem_cons_succ]
      linarith

theorem chained_getElem_end_le (ps : List (Rat × Rat)) :
    ∀ (b : Rat) (j : Nat) (hj : j < ps.length), chained b ps →
      (∀ p ∈ ps, 0 < p.2) →
      (ps[j]).1 + (ps[j]).2 ≤ b + sumD ps := by
  induction ps with
  | nil => intro b j hj; exact absurd hj (by simp)
  | cons p rest ih =>
    intro b j hj hch hpos
    obtain ⟨s, d⟩ := p
    obtain ⟨hs, hch2⟩ := hch
    have hrest : 0 ≤ sumD rest :=
      sumD_nonneg (fun q hq => hpos q (List.mem_cons_of_mem _ hq))
    rw [sumD_cons]
    cases j with
    | zero => simp only [List.getElem_cons_zero]; linarith
    | succ j =>
      have hj2 : j < rest.length := by simpa using hj
      have hrec := ih (b + d) j hj2 hch2
        (fun q hq => hpos q (List.mem_cons_of_mem _ hq))
      simp only [List.getElem_cons_succ]
      linarith

theorem chained_getD_consec (ps : List (Rat × Rat)) :
    ∀ (b : Rat) (j : Nat), j + 1 < ps.length → chained b ps →
      (ps.getD (j + 1) (0, 0)).1 =
        (ps.getD j (0, 0)).1 + (ps.getD j (0, 0)).2 := by
  induction ps with
  | nil => intro b j hj; exact absurd hj (by simp)
  | cons p rest ih =>
    intro b j hj hch
    obtain ⟨s, d⟩ := p
    obtain ⟨hs, hch2⟩ := hch
    cases j with
    | zero =>
      cases rest with
      | nil => simp at hj
      | cons q rs =>
        obtain ⟨hq, _⟩ := hch2
        simp [List.getD, hq, hs]
    | succ j =>
      have hj2 : j + 1 < rest.length := by simpa using hj
      simpa [List.getD] using ih (b + d) j hj2 hch2

theorem findChunkAux_eq_none (ps : List (Rat × Rat)) :
    ∀ (b : Rat) (i : Nat) (t : Rat), chained b ps → (∀ p ∈ ps, 0 < p.2) →
      b + sumD ps ≤ t → findChunkAux ps i t = none := by
  induction ps with
  | nil => intro b i t _ _ _; rfl
  | cons p rest ih =>
    intro b i t hch hpos hge
    obtain ⟨s, d⟩ := p
    obtain ⟨hs, hch2⟩ := hch
    have hrest : 0 ≤ sumD rest :=
      sumD_nonneg (fun q hq => hpos q (List.mem_cons_of_mem _ hq))
    rw [sumD_cons] at hge
    have hnot : ¬ (s ≤ t ∧ t < s + d) := by
      rintro ⟨h1, h2⟩
      simp only at hge
      linarith
    simp only [findChunkAux, if_neg hnot]
    exact ih (b + d) (i + 1) t hch2
      (fun q hq => hpos q (List.mem_cons_of_mem _ hq)) (by simp only at hge; linarith)

theorem findChunkAux_found (ps : List (Rat × Rat)) :
    ∀ (b : Rat) (i : Nat) (t : Rat), chained b ps → (∀ p ∈ ps, 0 < p.2) →
      b ≤ t → t < b + sumD ps →
      ∃ (j : Nat) (hj : j < ps.length),
        findChunkAux ps i t = some ⟨i + j, t - (ps[j]).1⟩ ∧
        (ps[j]).1 ≤ t ∧ t < (ps[j]).1 + (ps[j]).2 := by
  induction ps with
  | nil =>
    intro b i t _ _ hlo hhi
    rw [sumD_nil] at hhi
    exact absurd hhi (by linarith)
  | cons p rest ih =>
    intro b i t hch hpos hlo hhi
    obtain ⟨s, d⟩ := p
    obtain ⟨hs, hch2⟩ := hch
    by_cases hcap : s ≤ t ∧ t < s + d
    · refine ⟨0, by simp, ?_, by simpa using hcap.1, by simpa using hcap.2⟩
      simp [findChunkAux, if_pos hcap]
    · have hsd : s + d ≤ t := by
        by_contra hlt
        push_neg at hlt
        exact hcap ⟨by linarith, hlt⟩
      rw [sumD_cons] at hhi
      obtain ⟨j, hj, heq, hble, hblt⟩ :=
        ih (b + d) (i + 1) t hch2
          (fun q hq => hpos q (List.mem_cons_of_mem _ hq))
          (by linarith) (by simp only at hhi; linarith)
      refine ⟨j + 1, by simpa using Nat.succ_lt_succ hj, ?_,
        by simpa using hble, by simpa using hblt⟩
      have hstep : findChunkAux ((s, d) :: rest) i t = findChunkAux rest (i + 1) t := by
        simp [findChunkAux, if_neg hcap]
      rw [hstep, heq]
      have harith : i + 1 + j = i + (j + 1) := by omega
      simp [harith]

theorem findChunkAux_at_start (ps : List (Rat × Rat)) :
    ∀ (b : Rat) (i j : Nat) (hj : j < ps.length), chained b ps →
      (∀ p ∈ ps, 0 < p.2) →
      findChunkAux ps i ((ps[j]).1) = some ⟨i + j, 0⟩ := by
  induction ps with
  | nil => intro b i j hj; exact absurd hj (by simp)
  | cons p rest ih =>
    intro b i j hj hch hpos
    obtain ⟨s, d⟩ := p
    obtain ⟨hs, hch2⟩ := hch
    cases j with
    | zero =>
      have hd : 0 < d := hpos (s, d) (List.mem_cons_self _ _)
      simp [findChunkAux, hd]
    | succ j =>
      have hj2 : j < rest.length := by simpa using hj
      have hge : b + d ≤ (rest[j]).1 :=
        chained_getElem_fst_ge rest (b + d) j hj2 hch2
          (fun q hq => hpos q (List.mem_cons_of_mem _ hq))
      have hd : 0 < d := hpos (s, d) (List.mem_cons_self _ _)
      have hnot : ¬ (s ≤ (rest[j]).1 ∧ (rest[j]).1 < s + d) := by
        rintro ⟨_, h2⟩
        linarith
      have hrec := ih (b + d) (i + 1) j hj2 hch2
        (fun q hq => hpos q (List.mem_cons_of_mem _ hq))
      have harith : i + 1 + j = i + (j + 1) := by omega
      simp only [List.getElem_cons_succ, findChunkAux, if_neg hnot]
      rw [hrec, harith]

theorem wf_durs_length_pos {tl : Timeline} (h : Wf tl) :
    0 < tl.chunkDurations.length := by
  obtain ⟨hne, _, _, _⟩ := h
  cases hd : tl.chunkDurations with
  | nil => exact absurd hd hne
  | cons x xs => simp [hd]

theorem wf_offs_length {tl : Timeline} (h : Wf tl) :
    tl.chunkOffsets.length = tl.chunkDurations.length := by
  rw [h.2.2.1]
  unfold calculateCumulativeOffsets
  rw [List.length_scanl, List.length_dropLast]
  have := wf_durs_length_pos h
  omega

theorem wf_zip_length {tl : Timeline} (h : Wf tl) :
    (tl.chunkOffsets.zip tl.chunkDurations).length = tl.chunkDurations.length := by
  rw [List.length_zip, wf_offs_length h]
  exact min_self _

theorem wf_chained {tl : Timeline} (h : Wf tl) :
    chained 0 (tl.chunkOffsets.zip tl.chunkDurations) := by
  obtain ⟨_, _, hoff, _⟩ := h
  rw [hoff]
  exact chained_scanl_zip _ 0

theorem wf_zip_pos {tl : Timeline} (h : Wf tl) :
    ∀ p ∈ tl.chunkOffsets.zip tl.chunkDurations, 0 < p.2 := by
  obtain ⟨_, hpos, _, _⟩ := h
  intro p hp
  obtain ⟨a, b⟩ := p
  exact hpos b (List.of_mem_zip hp).2

theorem wf_sumD_eq {tl : Timeline} (h : Wf tl) :
    sumD (tl.chunkOffsets.zip tl.chunkDurations) = tl.totalDuration := by
  unfold sumD
  rw [List.map_snd_zip _ _ (le_of_eq (wf_offs_length h).symm), h.2.2.2]

theorem wf_total_pos {tl : Timeline} (h : Wf tl) : 0 < tl.totalDuration := by
  obtain ⟨hne, hpos, _, htot⟩ := h
  rw [htot]
  exact List.sum_pos _ hpos hne

theorem wf_zip_getElem {tl : Timeline} (h : Wf tl) {j : Nat}
    (hj : j < (tl.chunkOffsets.zip tl.chunkDurations).length) :
    (tl.chunkOffsets.zip tl.chunkDurations)[j] =
      (tl.chunkOffsets.getD j 0, tl.chunkDurations.getD j 0) := by
  have h1 : j < tl.chunkOffsets.length := by
    rw [wf_offs_length h, ← wf_zip_length h]; exact hj
  have h2 : j < tl.chunkDurations.length := by
    rw [← wf_zip_length h]; exact hj
  rw [List.getElem_zip, List.getD_eq_getElem _ _ h1, List.getD_eq_getElem _ _ h2]

/-- First element of a cumulative-offset table is the base. -/
theorem scanl_add_getD_zero (b : Rat) (l : List Rat) :
    (List.scanl (· + ·) b l).getD 0 0 = b := by
  cases l <;> simp [List.scanl]

/-- Last element of `scanl (+) b l` is `b + l.sum`. -/
theorem scanl_add_getLast (l : List Rat) :
    ∀ b : Rat, (List.scanl (· + ·) b l).getLast?.getD 0 = b + l.sum := by
  induction l with
  | nil => intro b; simp [List.scanl]
  | cons x xs ih =>
    intro b
    rw [List.scanl_cons]
    have hne : List.scanl (· + ·) (b + x) xs ≠ [] := by
      intro hcon
      have hlen := congrArg List.length hcon
      rw [List.length_scanl] at hlen
      simp at hlen
    rw [List.getLast?_append_of_ne_nil _ hne, ih (b + x)]
    simp [add_assoc]

theorem sum_dropLast_add_getLast {l : List Rat} (hne : l ≠ []) :
    l.dropLast.sum + l.getLast?.getD 0 = l.sum := by
  conv_rhs => rw [← List.dropLast_append_getLast hne]
  rw [List.sum_append, List.getLast?_eq_getLast _ hne]
  simp

theorem initTimeline_durs (chunks : List ChunkIn) :
    (initTimeline chunks).chunkDurations =
      (sortBySeq chunks).map (fun c => c.duration_s) := rfl

theorem initTimeline_offs (chunks : List ChunkIn) :
    (initTimeline chunks).chunkOffsets =
      calculateCumulativeOffsets ((sortBySeq chunks).map (fun c => c.duration_s)) := rfl

theorem initTimeline_durs_ne_nil {chunks : List ChunkIn} (hne : chunks ≠ []) :
    (initTimeline chunks).chunkDurations ≠ [] := by
  rw [initTimeline_durs]
  rw [Ne, List.map_eq_nil_iff]
  intro hcon
  have := List.length_insertionSort (fun a b : ChunkIn => a.seq ≤ b.seq) chunks
  rw [show List.insertionSort (fun a b : ChunkIn => a.seq ≤ b.seq) chunks = sortBySeq chunks from rfl, hcon] at this
  exact hne (List.length_eq_zero.mp this.symm)

theorem initTimeline_total {chunks : List ChunkIn} (hne : chunks ≠ []) :
    (initTimeline chunks).totalDuration = (initTimeline chunks).chunkDurations.sum := by
  have hd := initTimeline_durs_ne_nil hne
  show (calculateCumulativeOffsets _).getLast?.getD 0 + _ = _
  unfold calculateCumulativeOffsets
  rw [scanl_add_getLast _ 0, zero_add]
  exact sum_dropLast_add_getLast hd

/-- `initTimeline` establishes the timeline invariant whenever the input is
nonempty with positive durations. -/
theorem initTimeline_wf (chunks : List ChunkIn) (hne : chunks ≠ [])
    (hpos : ∀ c ∈ chunks, 0 < c.duration_s) : Wf (initTimeline chunks) := by
  refine ⟨initTimeline_durs_ne_nil hne, ?_, rfl, initTimeline_total hne⟩
  intro d hd
  rw [initTimeline_durs] at hd
  obtain ⟨c, hc, hcd⟩ := List.mem_map.mp hd
  have hcm : c ∈ chunks :=
    (List.perm_insertionSort (fun a b : ChunkIn => a.seq ≤ b.seq) chunks).mem_iff.mp hc
  rw [← hcd]
  exact hpos c hcm

theorem zip_getD_eq {l1 l2 : List Rat} {j : Nat} (h1 : j < l1.length)
    (h2 : j < l2.length) :
    (l1.zip l2).getD j (0, 0) = (l1.getD j 0, l2.getD j 0) := by
  have hz : j < (l1.zip l2).length := by rw [List.length_zip]; exact lt_min h1 h2
  rw [List.getD_eq_getElem _ _ hz, List.getD_eq_getElem _ _ h1,
    List.getD_eq_getElem _ _ h2, List.getElem_zip]

/-- Any negative input is clamped to 0, which lies in chunk 0 (durations are
positive, so chunk 0 has a nonempty half-open interval starting at 0). -/
theorem getChunkPosition_neg {tl : Timeline} (h : Wf tl) (t : Rat) (ht : t < 0) :
    getChunkPosition tl t = ⟨0, 0⟩ := by
  have htpos := wf_total_pos h
  have hclamp : max 0 (min t tl.totalDuration) = 0 := by
    rw [min_eq_left (by linarith), max_eq_left (by linarith)]
  have hlen : 0 < (tl.chunkOffsets.zip tl.chunkDurations).length := by
    rw [wf_zip_length h]
    exact wf_durs_length_pos h
  have hz : ((tl.chunkOffsets.zip tl.chunkDurations)[0]).1 = 0 :=
    chained_getElem_zero (wf_chained h) hlen
  have hfind := findChunkAux_at_start _ 0 0 0 hlen (wf_chained h) (wf_zip_pos h)
  rw [hz] at hfind
  unfold getChunkPosition
  rw [hclamp, hfind]

/-- Any input at or beyond the total duration is clamped to `totalDuration`,
no half-open interval contains it, and the fallback returns the last chunk at
its full duration. -/
theorem getChunkPosition_ge_total {tl : Timeline} (h : Wf tl) (t : Rat)
    (ht : tl.totalDuration ≤ t) :
    getChunkPosition tl t =
      ⟨tl.chunkDurations.length - 1,
        tl.chunkDurations.getD (tl.chunkDurations.length - 1) 0⟩ := by
  have htpos := wf_total_pos h
  have hclamp : max 0 (min t tl.totalDuration) = tl.totalDuration := by
    rw [min_eq_right ht, max_eq_right (by linarith)]
  have hnone := findChunkAux_eq_none _ 0 0 tl.totalDuration (wf_chained h)
    (wf_zip_pos h) (le_of_eq (by rw [zero_add, wf_sumD_eq h]))
  unfold getChunkPosition
  rw [hclamp, hnone]

/-- An input equal to a chunk boundary offset resolves to that chunk at local
time 0 (the half-open interval rule sends boundaries to the later chunk). -/
theorem getChunkPosition_boundary {tl : Timeline} (h : Wf tl) (j : Nat)
    (hj : j < tl.chunkOffsets.length) :
    getChunkPosition tl (tl.chunkOffsets.getD j 0) = ⟨j, 0⟩ := by
  have hjz : j < (tl.chunkOffsets.zip tl.chunkDurations).length := by
    rw [wf_zip_length h, ← wf_offs_length h]; exact hj
  have hz := wf_zip_getElem h hjz
  have hge : (0 : Rat) ≤ ((tl.chunkOffsets.zip tl.chunkDurations)[j]).1 :=
    chained_getElem_fst_ge _ 0 j hjz (wf_chained h) (wf_zip_pos h)
  have hend := chained_getElem_end_le _ 0 j hjz (wf_chained h) (wf_zip_pos h)
  have hdpos : 0 < ((tl.chunkOffsets.zip tl.chunkDurations)[j]).2 :=
    wf_zip_pos h _ (List.getElem_mem hjz)
  rw [zero_add, wf_sumD_eq h] at hend
  have hfst : ((tl.chunkOffsets.zip tl.chunkDurations)[j]).1 =
      tl.chunkOffsets.getD j 0 := by rw [hz]
  have h1 : tl.chunkOffsets.getD j 0 ≤ tl.totalDuration := by
    rw [← hfst]; linarith
  have h2 : (0 : Rat) ≤ tl.chunkOffsets.getD j 0 := by
    rw [← hfst]; exact hge
  have hclamp : max 0 (min (tl.chunkOffsets.getD j 0) tl.totalDuration) =
      tl.chunkOffsets.getD j 0 := by
    rw [min_eq_left h1, max_eq_right h2]
  have hfind := findChunkAux_at_start _ 0 0 j hjz (wf_chained h) (wf_zip_pos h)
  rw [hfst] at hfind
  unfold getChunkPosition
  rw [hclamp, hfind]
  simp

/-- For a clamp-free input in `[0, totalDuration)`, `getChunkPosition` lands
in the unique half-open interval containing it. -/
theorem getChunkPosition_mem {tl : Timeline} (h : Wf tl) {t : Rat}
    (h0 : 0 ≤ t) (hlt : t < tl.totalDuration) :
    ∃ (j : Nat) (hj : j < (tl.chunkOffsets.zip tl.chunkDurations).length),
      getChunkPosition tl t =
        ⟨j, t - ((tl.chunkOffsets.zip tl.chunkDurations)[j]).1⟩ ∧
      ((tl.chunkOffsets.zip tl.chunkDurations)[j]).1 ≤ t ∧
      t < ((tl.chunkOffsets.zip tl.chunkDurations)[j]).1 +
        ((tl.chunkOffsets.zip tl.chunkDurations)[j]).2 := by
  have hclamp : max 0 (min t tl.totalDuration) = t := by
    rw [min_eq_left (le_of_lt hlt), max_eq_right h0]
  obtain ⟨j, hj, heq, h1, h2⟩ := findChunkAux_found _ 0 0 t (wf_chained h)
    (wf_zip_pos h) h0 (by rw [zero_add, wf_sumD_eq h]; exact hlt)
  refine ⟨j, hj, ?_, h1, h2⟩
  unfold getChunkPosition
  rw [hclamp, heq]
  simp

theorem tl2_wf : Wf tl2 := by
  refine ⟨by simp [tl2], ?_, ?_, by norm_num [tl2]⟩
  · intro d hd
    simp [tl2] at hd
    rw [hd]
    norm_num
  · show tl2.chunkOffsets = calculateCumulativeOffsets tl2.chunkDurations
    norm_num [tl2, calculateCumulativeOffsets, List.dropLast, List.scanl]

/-- Claim C1: for every initialized timeline with at least one chunk,
`getChunkPosition` clamps to `[0, totalDuration]` and resolves by the
half-open interval rule: negative inputs give chunk 0 at local time 0, inputs
at or beyond `totalDuration` give the last chunk at its full duration, and an
input equal to an interior chunk boundary resolves to the later chunk at
local time 0. -/
theorem claim_C1 (tl : Timeline) (hwf : Wf tl) :
    (∀ t : Rat, t < 0 → getChunkPosition tl t = ⟨0, 0⟩) ∧
    (∀ t : Rat, tl.totalDuration ≤ t →
      getChunkPosition tl t =
        ⟨tl.chunkDurations.length - 1,
          tl.chunkDurations.getD (tl.chunkDurations.length - 1) 0⟩) ∧
    (∀ j : Nat, 0 < j → j < tl.chunkOffsets.length →
      getChunkPosition tl (tl.chunkOffsets.getD j 0) = ⟨j, 0⟩) :=
  ⟨fun t ht => getChunkPosition_neg hwf t ht,
   fun t ht => getChunkPosition_ge_total hwf t ht,
   fun j _ hj => getChunkPosition_boundary hwf j hj⟩

theorem claim_C1_witness :
    getChunkPosition tl2 (-5) = ⟨0, 0⟩ ∧
    getChunkPosition tl2 7 = ⟨1, 157/50⟩ ∧
    getChunkPosition tl2 (157/50) = ⟨1, 0⟩ := by
  obtain ⟨h1, h2, h3⟩ := claim_C1 tl2 tl2_wf
  refine ⟨h1 (-5) (by norm_num), ?_, ?_⟩
  · have := h2 7 (by norm_num [tl2])
    simpa [tl2] using this
  · have := h3 1 (by norm_num) (by norm_num [tl2])
    simpa [tl2] using this

/-- Claim C2: composing `getChunkPosition` with `getVirtualTime` is the
identity for every virtual time strictly inside some chunk interval (the
rational model makes the round trip exact, hence within any epsilon). -/
theorem claim_C2 (tl : Timeline) (hwf : Wf tl) (t : Rat) (i : Nat)
    (hi : i < tl.chunkOffsets.length)
    (hlo : tl.chunkOffsets.getD i 0 < t)
    (hhi : t < tl.chunkOffsets.getD i 0 + tl.chunkDurations.getD i 0) :
    getVirtualTime tl ((getChunkPosition tl t).chunkIndex : Int)
      (getChunkPosition tl t).localTime = t := by
  have hiz : i < (tl.chunkOffsets.zip tl.chunkDurations).length := by
    rw [wf_zip_length hwf, ← wf_offs_length hwf]; exact hi
  have hzi := wf_zip_getElem hwf hiz
  have hge0 : (0 : Rat) ≤ ((tl.chunkOffsets.zip tl.chunkDurations)[i]).1 :=
    chained_getElem_fst_ge _ 0 i hiz (wf_chained hwf) (wf_zip_pos hwf)
  have hendi := chained_getElem_end_le _ 0 i hiz (wf_chained hwf) (wf_zip_pos hwf)
  rw [zero_add, wf_sumD_eq hwf] at hendi
  rw [hzi] at hge0 hendi
  simp only at hge0 hendi
  have h0t : 0 ≤ t := by linarith
  have htlt : t < tl.totalDuration := by linarith
  obtain ⟨j, hj, hgcp, hble, hblt⟩ := getChunkPosition_mem hwf h0t htlt
  rw [hgcp]
  show getVirtualTime tl (j : Int)
    (t - ((tl.chunkOffsets.zip tl.chunkDurations)[j]).1) = t
  have hjlen : j < tl.chunkOffsets.length := by
    rw [wf_offs_length hwf, ← wf_zip_length hwf]; exact hj
  unfold getVirtualTime
  have hcond : ¬((j : Int) < 0 ∨ (tl.chunkOffsets.length : Int) ≤ (j : Int)) := by
    push_neg
    exact ⟨by exact_mod_cast Nat.zero_le j, by exact_mod_cast hjlen⟩
  rw [if_neg hcond]
  have htn : ((j : Int)).toNat = j := by omega
  rw [htn]
  have hzj := wf_zip_getElem hwf hj
  have hfst : ((tl.chunkOffsets.zip tl.chunkDurations)[j]).1 =
      tl.chunkOffsets.getD j 0 := by rw [hzj]
  have hsnd : ((tl.chunkOffsets.zip tl.chunkDurations)[j]).2 =
      tl.chunkDurations.getD j 0 := by rw [hzj]
  rw [← hfst, ← hsnd]
  have hminle : t - ((tl.chunkOffsets.zip tl.chunkDurations)[j]).1 ≤
      ((tl.chunkOffsets.zip tl.chunkDurations)[j]).2 := by linarith
  rw [min_eq_left hminle, max_eq_right (by linarith)]
  linarith

theorem claim_C2_witness :
    getVirtualTime tl2 ((getChunkPosition tl2 2).chunkIndex : Int)
      (getChunkPosition tl2 2).localTime = 2 :=
  claim_C2 tl2 tl2_wf 2 0 (by norm_num [tl2]) (by norm_num [tl2])
    (by norm_num [tl2])

/-- Claim C8: `getChunkPosition` is total and in-bounds on every well-formed
timeline: the returned chunk index addresses the duration table and the local
time lies within `[0, duration]` of that chunk. -/
theorem claim_C8 (tl : Timeline) (hwf : Wf tl) (t : Rat) :
    (getChunkPosition tl t).chunkIndex < tl.chunkDurations.length ∧
    0 ≤ (getChunkPosition tl t).localTime ∧
    (getChunkPosition tl t).localTime ≤
      tl.chunkDurations.getD (getChunkPosition tl t).chunkIndex 0 := by
  have hn := wf_durs_length_pos hwf
  by_cases hge : tl.totalDuration ≤ t
  · rw [getChunkPosition_ge_total hwf t hge]
    have hlast : tl.chunkDurations.length - 1 < tl.chunkDurations.length := by omega
    refine ⟨hlast, ?_, le_refl _⟩
    rw [List.getD_eq_getElem _ _ hlast]
    exact le_of_lt (hwf.2.1 _ (List.getElem_mem hlast))
  · push_neg at hge
    by_cases hneg : t < 0
    · rw [getChunkPosition_neg hwf t hneg]
      refine ⟨hn, le_refl _, ?_⟩
      rw [List.getD_eq_getElem _ _ hn]
      exact le_of_lt (hwf.2.1 _ (List.getElem_mem hn))
    · push_neg at hneg
      obtain ⟨j, hj, hgcp, hble, hblt⟩ := getChunkPosition_mem hwf hneg hge
      rw [hgcp]
      have hzj := wf_zip_getElem hwf hj
      refine ⟨?_, ?_, ?_⟩
      · show j < tl.chunkDurations.length
        rw [← wf_zip_length hwf]; exact hj
      · show 0 ≤ t - ((tl.chunkOffsets.zip tl.chunkDurations)[j]).1
        linarith
      · show t - ((tl.chunkOffsets.zip tl.chunkDurations)[j]).1 ≤
          tl.chunkDurations.getD j 0
        have hsnd : ((tl.chunkOffsets.zip tl.chunkDurations)[j]).2 =
            tl.chunkDurations.getD j 0 := by rw [hzj]
        rw [← hsnd]
        linarith

theorem claim_C8_witness :
    (getChunkPosition tl2 100).chunkIndex < tl2.chunkDurations.length ∧
    0 ≤ (getChunkPosition tl2 100).localTime ∧
    (getChunkPosition tl2 100).localTime ≤
      tl2.chunkDurations.getD (getChunkPosition tl2 100).chunkIndex 0 :=
  claim_C8 tl2 tl2_wf 100

/-- Claim C9: `getVirtualTime` never fails: out-of-range chunk indices give 0,
and the result always lies in `[0, totalDuration]` because in-range local
times are clamped to `[0, duration]` before the offset is added. -/
theorem claim_C9 (tl : Timeline) (hwf : Wf tl) (chunkIndex : Int)
    (localTime : Rat) :
    ((chunkIndex < 0 ∨ (tl.chunkOffsets.length : Int) ≤ chunkIndex) →
      getVirtualTime tl chunkIndex localTime = 0) ∧
    0 ≤ getVirtualTime tl chunkIndex localTime ∧
    getVirtualTime tl chunkIndex localTime ≤ tl.totalDuration := by
  have htpos := wf_total_pos hwf
  by_cases hbad : chunkIndex < 0 ∨ (tl.chunkOffsets.length : Int) ≤ chunkIndex
  · unfold getVirtualTime
    rw [if_pos hbad]
    exact ⟨fun _ => rfl, le_refl 0, le_of_lt htpos⟩
  · refine ⟨fun hcon => absurd hcon hbad, ?_⟩
    unfold getVirtualTime
    rw [if_neg hbad]
    push_neg at hbad
    obtain ⟨hb1, hb2⟩ := hbad
    have hjlen : chunkIndex.toNat < tl.chunkOffsets.length := by omega
    have hjz : chunkIndex.toNat < (tl.chunkOffsets.zip tl.chunkDurations).length := by
      rw [wf_zip_length hwf, ← wf_offs_length hwf]; exact hjlen
    have hz := wf_zip_getElem hwf hjz
    have hge := chained_getElem_fst_ge _ 0 _ hjz (wf_chained hwf) (wf_zip_pos hwf)
    have hend := chained_getElem_end_le _ 0 _ hjz (wf_chained hwf) (wf_zip_pos hwf)
    have hdpos := wf_zip_pos hwf _ (List.getElem_mem hjz)
    rw [zero_add, wf_sumD_eq hwf] at hend
    rw [hz] at hge hend hdpos
    simp only at hge hend hdpos
    constructor
    · have hmax : (0 : Rat) ≤
          max 0 (min localTime (tl.chunkDurations.getD chunkIndex.toNat 0)) :=
        le_max_left _ _
      linarith
    · have hmax : max 0 (min localTime (tl.chunkDurations.getD chunkIndex.toNat 0)) ≤
          tl.chunkDurations.getD chunkIndex.toNat 0 :=
        max_le (le_of_lt hdpos) (min_le_right _ _)
      linarith

theorem claim_C9_witness :
    getVirtualTime tl2 (-3) 1 = 0 ∧
    0 ≤ getVirtualTime tl2 0 5 ∧
    getVirtualTime tl2 0 5 ≤ tl2.totalDuration :=
  ⟨(claim_C9 tl2 tl2_wf (-3) 1).1 (Or.inl (by norm_num)),
   (claim_C9 tl2 tl2_wf 0 5).2.1,
   (claim_C9 tl2 tl2_wf 0 5).2.2⟩

/-- Claim C5: `isNearChunkEnd` is true iff `chunkDuration - localTime ≤
threshold` for the chunk `getChunkPosition` resolves the time to; with chunk
duration `3.14` and threshold `1.0` it is true at local time `2.2` and false
at local time `2.0`. -/
theorem claim_C5 :
    (∀ (tl : Timeline) (t θ : Rat),
      isNearChunkEnd tl t θ = true ↔
        tl.chunkDurations.getD (getChunkPosition tl t).chunkIndex 0 -
          (getChunkPosition tl t).localTime ≤ θ) ∧
    isNearChunkEnd tl1c (11/5) 1 = true ∧
    isNearChunkEnd tl1c 2 1 = false := by
  refine ⟨fun tl t θ => by simp [isNearChunkEnd], ?_, ?_⟩
  · norm_num [isNearChunkEnd, getChunkPosition, findChunkAux, tl1c,
      List.zip, List.zipWith, min_def, max_def]
  · norm_num [isNearChunkEnd, getChunkPosition, findChunkAux, tl1c,
      List.zip, List.zipWith, min_def, max_def]

/-- Claim C3 counterexample: `badChunks` contains a chunk of duration
`-1 ≤ 0`, so the claim requires initialization to fail with
`InvalidTimelineError`; the source `initialize` nevertheless succeeds
(it performs no validation), diverging from the spec-modelled contract. -/
theorem claim_C3_cex :
    (⟨0, -1, "u"⟩ : ChunkIn) ∈ badChunks ∧
    (⟨0, -1, "u"⟩ : ChunkIn).duration_s ≤ 0 ∧
    (initTimelineE badChunks).isOk = true ∧
    (initTimelineSpec badChunks).isOk = false := by
  refine ⟨by simp [badChunks], by norm_num, rfl, ?_⟩
  have hnv : ¬ validChunks badChunks := by
    unfold validChunks badChunks
    rintro ⟨-, hpos⟩
    have := hpos ⟨0, -1, "u"⟩ (by simp)
    norm_num at this
  simp [initTimelineSpec, hnv, Except.isOk, Except.toBool]

/-- Claim C3 (amended): the source `initialize` performs no validation and
never fails — even for non-contiguous sequences or non-positive durations —
and for every nonempty input it builds the cumulative-offset table over the
seq-sorted durations with `offsets[0] = 0`,
`offsets[i+1] = offsets[i] + durations[i]`, and total duration equal to the
sum of the durations. -/
theorem claim_C3_amended (chunks : List ChunkIn) (hne : chunks ≠ []) :
    (initTimelineE chunks).isOk = true ∧
    (initTimeline chunks).chunkDurations =
      (sortBySeq chunks).map (fun c => c.duration_s) ∧
    (initTimeline chunks).chunkOffsets.length =
      (initTimeline chunks).chunkDurations.length ∧
    (initTimeline chunks).chunkOffsets.getD 0 0 = 0 ∧
    (∀ i : Nat, i + 1 < (initTimeline chunks).chunkOffsets.length →
      (initTimeline chunks).chunkOffsets.getD (i + 1) 0 =
        (initTimeline chunks).chunkOffsets.getD i 0 +
          (initTimeline chunks).chunkDurations.getD i 0) ∧
    (initTimeline chunks).totalDuration =
      (initTimeline chunks).chunkDurations.sum := by
  have hlen : (initTimeline chunks).chunkOffsets.length =
      (initTimeline chunks).chunkDurations.length := by
    have h1 := initTimeline_durs_ne_nil hne
    have h0 : (initTimeline chunks).chunkDurations.length ≠ 0 :=
      fun hc => h1 (List.length_eq_zero.mp hc)
    rw [initTimeline_durs] at h0
    rw [initTimeline_offs, initTimeline_durs]
    unfold calculateCumulativeOffsets
    rw [List.length_scanl, List.length_dropLast]
    omega
  refine ⟨rfl, rfl, hlen, ?_, ?_, initTimeline_total hne⟩
  · show (calculateCumulativeOffsets _).getD 0 0 = 0
    unfold calculateCumulativeOffsets
    exact scanl_add_getD_zero 0 _
  · intro i hi
    have hch : chained 0
        ((initTimeline chunks).chunkOffsets.zip (initTimeline chunks).chunkDurations) := by
      have hoffs : (initTimeline chunks).chunkOffsets =
          calculateCumulativeOffsets (initTimeline chunks).chunkDurations := rfl
      rw [hoffs]
      exact chained_scanl_zip _ 0
    have hi1o : i + 1 < (initTimeline chunks).chunkOffsets.length := hi
    have hio : i < (initTimeline chunks).chunkOffsets.length := by omega
    have hi1d : i + 1 < (initTimeline chunks).chunkDurations.length := by
      rw [← hlen]; exact hi1o
    have hid : i < (initTimeline chunks).chunkDurations.length := by omega
    have hiz : i + 1 <
        ((initTimeline chunks).chunkOffsets.zip (initTimeline chunks).chunkDurations).length := by
      rw [List.length_zip]
      exact lt_min hi1o hi1d
    have hcons := chained_getD_consec _ 0 i hiz hch
    rw [zip_getD_eq hi1o hi1d, zip_getD_eq hio hid] at hcons
    simpa using hcons

theorem claim_C3_amended_witness :
    (initTimelineE [(⟨0, 3, "a"⟩ : ChunkIn)]).isOk = true ∧
    (initTimeline [(⟨0, 3, "a"⟩ : ChunkIn)]).chunkOffsets.getD 0 0 = 0 ∧
    (initTimeline [(⟨0, 3, "a"⟩ : ChunkIn)]).totalDuration =
      (initTimeline [(⟨0, 3, "a"⟩ : ChunkIn)]).chunkDurations.sum := by
  have h := claim_C3_amended [⟨0, 3, "a"⟩] (by simp)
  exact ⟨h.1, h.2.2.2.1, h.2.2.2.2.2⟩

theorem corePreserved_refl (s : StreamerState) : CorePreserved s s :=
  ⟨rfl, rfl, rfl, rfl, rfl, rfl, rfl, rfl, rfl⟩

theorem corePreserved_trans {a b c : StreamerState}
    (h1 : CorePreserved a b) (h2 : CorePreserved b c) : CorePreserved a c := by
  obtain ⟨x1, x2, x3, x4, x5, x6, x7, x8, x9⟩ := h1
  obtain ⟨y1, y2, y3, y4, y5, y6, y7, y8, y9⟩ := h2
  exact ⟨y1.trans x1, y2.trans x2, y3.trans x3, y4.trans x4, y5.trans x5,
    y6.trans x6, y7.trans x7, y8.trans x8, y9.trans x9⟩

theorem foldl_signed_core (f : StreamerState → Nat × String → StreamerState)
    (hf : ∀ s kv, CorePreserved s (f s kv)) (urls : List (Nat × String)) :
    ∀ s : StreamerState, CorePreserved s (urls.foldl f s) := by
  induction urls with
  | nil => intro s; exact corePreserved_refl s
  | cons kv rest ih =>
    intro s
    rw [List.foldl_cons]
    exact corePreserved_trans (hf s kv) (ih _)

theorem generateSignedUrls_core (s : StreamerState) (env : Env) (l : List Nat) :
    CorePreserved s (generateSignedUrls s env l).1 := by
  unfold generateSignedUrls
  cases henv : env.sign l with
  | error e => exact corePreserved_refl s
  | ok res =>
    show CorePreserved s (res.1.foldl (fun acc kv =>
      { acc with
        signedUrls := mapSet acc.signedUrls kv.1 kv.2
        urlExpirationTime :=
          mapSet acc.urlExpirationTime kv.1 (env.now + res.2 * 1000 - 60000) }) s)
    refine foldl_signed_core _ ?_ res.1 s
    exact fun s0 kv => ⟨rfl, rfl, rfl, rfl, rfl, rfl, rfl, rfl, rfl⟩

theorem getChunkUrlRegen_core (s : StreamerState) (env : Env) (i : Nat) :
    CorePreserved s (getChunkUrlRegen s env i).1 := by
  unfold getChunkUrlRegen
  split
  · rename_i s1 e hg
    have h0 := generateSignedUrls_core s env (regenUrlList s env i)
    rw [hg] at h0
    simpa using h0
  · rename_i s1 u hg
    have h0 := generateSignedUrls_core s env (regenUrlList s env i)
    rw [hg] at h0
    split <;> simpa using h0

theorem getChunkUrl_core (s : StreamerState) (env : Env) (i : Nat) :
    CorePreserved s (getChunkUrl s env i).1 := by
  unfold getChunkUrl
  split
  · split
    · exact corePreserved_refl s
    · exact getChunkUrlRegen_core s env i
  · exact getChunkUrlRegen_core s env i

theorem prefetchChunkStep_core (env : Env) (s : StreamerState) (i : Nat) :
    CorePreserved s (prefetchChunkStep env s i) := by
  unfold prefetchChunkStep
  split
  · exact corePreserved_refl s
  · split
    · rename_i s1 e hg
      have h0 := getChunkUrl_core s env i
      rw [hg] at h0
      simpa using h0
    · rename_i s1 url hg
      have hcore : CorePreserved s s1 := by
        have h0 := getChunkUrl_core s env i
        rw [hg] at h0
        simpa using h0
      split
      · exact hcore
      · exact corePreserved_trans hcore ⟨rfl, rfl, rfl, rfl, rfl, rfl, rfl, rfl, rfl⟩

theorem prefetchChunks_core (env : Env) (l : List Nat) :
    ∀ s : StreamerState, CorePreserved s (prefetchChunks s env l) := by
  induction l with
  | nil => intro s; exact corePreserved_refl s
  | cons i rest ih =>
    intro s
    show CorePreserved s (prefetchChunks (prefetchChunkStep env s i) env rest)
    exact corePreserved_trans (prefetchChunkStep_core env s i) (ih _)

theorem prefetchUpcoming_core (s : StreamerState) (env : Env) (c : Nat) :
    CorePreserved s (prefetchUpcoming s env c) := by
  unfold prefetchUpcoming
  split
  · exact corePreserved_refl s
  · rename_i n hb
    split
    · exact prefetchChunks_core env _ s
    · split
      · rename_i s1 u hg
        have hcore : CorePreserved s s1 := by
          have := generateSignedUrls_core s env
            ((upcomingWindow s c n).filter (staleForPrefetch s env))
          rw [hg] at this
          exact this
        exact corePreserved_trans hcore (prefetchChunks_core env _ s1)
      · rename_i s1 e hg
        have hcore : CorePreserved s s1 := by
          have := generateSignedUrls_core s env
            ((upcomingWindow s c n).filter (staleForPrefetch s env))
          rw [hg] at this
          exact this
        exact corePreserved_trans hcore (prefetchChunks_core env _ s1)

theorem loadChunkFetch_core (s : StreamerState) (env : Env) (i : Nat) :
    CorePreserved s (loadChunkFetch s env i).1 := by
  unfold loadChunkFetch
  split
  · exact corePreserved_refl s
  · split
    · rename_i s1 e hg
      have h0 := getChunkUrl_core s env i
      rw [hg] at h0
      simpa using h0
    · rename_i s1 url hg
      have hcore : CorePreserved s s1 := by
        have h0 := getChunkUrl_core s env i
        rw [hg] at h0
        simpa using h0
      split
      · exact hcore
      · exact corePreserved_trans hcore ⟨rfl, rfl, rfl, rfl, rfl, rfl, rfl, rfl, rfl⟩

theorem loadChunk_error_shape (s : StreamerState) (env : Env) (i : Int)
    (s1 : StreamerState) (evs : List Event) (e : StreamErr)
    (h : loadChunk s env i = (s1, evs, .error e)) :
    s1.currentChunk = s.currentChunk ∧ evs = [] := by
  unfold loadChunk at h
  split at h
  · simp only [Prod.mk.injEq] at h
    exact ⟨by rw [← h.1], h.2.1.symm⟩
  · simp only [Prod.mk.injEq] at h
    exact ⟨by rw [← h.1], h.2.1.symm⟩
  · split at h
    · simp only [Prod.mk.injEq] at h
      exact ⟨by rw [← h.1], h.2.1.symm⟩
    · split at h
      · rename_i s2 e2 hf
        simp only [Prod.mk.injEq] at h
        have hcore := loadChunkFetch_core s env i.toNat
        rw [hf] at hcore
        refine ⟨?_, h.2.1.symm⟩
        rw [← h.1]
        simpa using hcore.2.1
      · rename_i s2 url hf
        simp only [Prod.mk.injEq] at h
        exact absurd h.2.2 (by simp)

theorem loadChunk_ok_shape (s : StreamerState) (env : Env) (i : Int)
    (s1 : StreamerState) (evs : List Event) (u : String)
    (h : loadChunk s env i = (s1, evs, .ok u)) :
    s1.currentChunk = i.toNat ∧ evs = [.chunkChange i.toNat] := by
  unfold loadChunk at h
  split at h
  · simp only [Prod.mk.injEq] at h
    exact absurd h.2.2 (by simp)
  · simp only [Prod.mk.injEq] at h
    exact absurd h.2.2 (by simp)
  · split at h
    · simp only [Prod.mk.injEq] at h
      exact absurd h.2.2 (by simp)
    · split at h
      · rename_i s2 e2 hf
        simp only [Prod.mk.injEq] at h
        exact absurd h.2.2 (by simp)
      · rename_i s2 url hf
        simp only [Prod.mk.injEq] at h
        refine ⟨?_, h.2.1.symm⟩
        rw [← h.1]
        have := (prefetchUpcoming_core { s2 with currentChunk := i.toNat } env
          i.toNat).2.1
        simpa using this

theorem loadChunk_isTransitioning (s : StreamerState) (env : Env) (i : Int) :
    (loadChunk s env i).1.isTransitioning = s.isTransitioning := by
  rcases hl : loadChunk s env i with ⟨s1, evs, r⟩
  show s1.isTransitioning = s.isTransitioning
  unfold loadChunk at hl
  split at hl
  · simp only [Prod.mk.injEq] at hl
    rw [← hl.1]
  · simp only [Prod.mk.injEq] at hl
    rw [← hl.1]
  · split at hl
    · simp only [Prod.mk.injEq] at hl
      rw [← hl.1]
    · split at hl
      · rename_i s2 e2 hf
        simp only [Prod.mk.injEq] at hl
        have hcore := loadChunkFetch_core s env i.toNat
        rw [hf] at hcore
        rw [← hl.1]
        simpa using hcore.2.2.2.2.2.2.1
      · rename_i s2 url hf
        simp only [Prod.mk.injEq] at hl
        have hcore := loadChunkFetch_core s env i.toNat
        rw [hf] at hcore
        have h2 := (prefetchUpcoming_core { s2 with currentChunk := i.toNat } env
          i.toNat).2.2.2.2.2.2.1
        rw [← hl.1, h2]
        simpa using hcore.2.2.2.2.2.2.1

theorem setActiveAudioTime_isTransitioning (s : StreamerState) (t : Rat) :
    (setActiveAudioTime s t).isTransitioning = s.isTransitioning := by
  unfold setActiveAudioTime
  split
  · rfl
  · split <;> rfl

/-- Claim C4 (amended): `seekToVirtualTime` leaves the transition state
exactly as it found it — the source performs no cancellation of an in-flight
automatic transition on seek. -/
theorem claim_C4 (s : StreamerState) (env : Env) (t : Rat) :
    (seekToVirtualTime s env t).1.isTransitioning = s.isTransitioning := by
  unfold seekToVirtualTime
  split
  · rfl
  · split
    · split
      · rename_i s1 evs e hl
        have h1 := loadChunk_isTransitioning s env
          ((getChunkPosition s.virtualTimeline t).chunkIndex : Int)
        rw [hl] at h1
        simpa using h1
      · rename_i s1 evs u hl
        have h1 := loadChunk_isTransitioning s env
          ((getChunkPosition s.virtualTimeline t).chunkIndex : Int)
        rw [hl] at h1
        show (setActiveAudioTime s1
          (getChunkPosition s.virtualTimeline t).localTime).isTransitioning =
            s.isTransitioning
        rw [setActiveAudioTime_isTransitioning]
        simpa using h1
    · show (setActiveAudioTime s
        (getChunkPosition s.virtualTimeline t).localTime).isTransitioning =
          s.isTransitioning
      rw [setActiveAudioTime_isTransitioning]

/-- Claim C4 counterexample: from a state with `isTransitioning = true`, a
`seekToVirtualTime` call completes successfully yet the transition state is
still not Idle — the source's seek path never resets `isTransitioning`. -/
theorem claim_C4_cex :
    (seekToVirtualTime sSeek envFail 1).2 = .ok () ∧
    (seekToVirtualTime sSeek envFail 1).1.isTransitioning = true := by
  have hpos : getChunkPosition tl1c 1 = ⟨0, 1⟩ := by
    norm_num [getChunkPosition, findChunkAux, tl1c, List.zip, List.zipWith,
      min_def, max_def]
  constructor
  · simp [seekToVirtualTime, sSeek, hpos, setActiveAudioTime, getActiveAudio]
  · simp [seekToVirtualTime, sSeek, hpos, setActiveAudioTime, getActiveAudio]

/-- Claim C6: `cleanup` is unconditional (a total function on every streamer
state, so calling it twice raises no error) and idempotent, and after it every
cache is empty and the playback state is reset. -/
theorem claim_C6 (s : StreamerState) :
    cleanup (cleanup s) = cleanup s ∧
    (cleanup s).chunkCache = [] ∧
    (cleanup s).signedUrls = [] ∧
    (cleanup s).urlExpirationTime = [] ∧
    (cleanup s).preloadQueue = [] ∧
    (cleanup s).preloadPromises = [] ∧
    (cleanup s).book = none ∧
    (cleanup s).primaryAudio = none ∧
    (cleanup s).secondaryAudio = none ∧
    (cleanup s).isInitialized = false ∧
    (cleanup s).isTransitioning = false ∧
    (cleanup s).currentChunk = 0 :=
  ⟨rfl, rfl, rfl, rfl, rfl, rfl, rfl, rfl, rfl, rfl, rfl, rfl⟩

/-- Claim C7: the prefetch path never rejects (both operations are total,
every resolution or fetch failure being caught in a branch that continues),
and for every oracle — including one where every request fails — it leaves
the current chunk, the playback position (audio elements and active flag),
the initialized flag, the book, and the transition state unchanged. -/
theorem claim_C7 (s : StreamerState) (env : Env) (chunkIndices : List Nat)
    (c : Nat) :
    ((prefetchChunks s env chunkIndices).currentChunk = s.currentChunk ∧
     (prefetchChunks s env chunkIndices).isInitialized = s.isInitialized ∧
     (prefetchChunks s env chunkIndices).book = s.book ∧
     (prefetchChunks s env chunkIndices).isTransitioning = s.isTransitioning ∧
     (prefetchChunks s env chunkIndices).primaryAudio = s.primaryAudio ∧
     (prefetchChunks s env chunkIndices).secondaryAudio = s.secondaryAudio ∧
     (prefetchChunks s env chunkIndices).activePrimary = s.activePrimary) ∧
    ((prefetchUpcoming s env c).currentChunk = s.currentChunk ∧
     (prefetchUpcoming s env c).isInitialized = s.isInitialized ∧
     (prefetchUpcoming s env c).book = s.book ∧
     (prefetchUpcoming s env c).isTransitioning = s.isTransitioning ∧
     (prefetchUpcoming s env c).primaryAudio = s.primaryAudio ∧
     (prefetchUpcoming s env c).secondaryAudio = s.secondaryAudio ∧
     (prefetchUpcoming s env c).activePrimary = s.activePrimary) := by
  have h1 := prefetchChunks_core env chunkIndices s
  have h2 := prefetchUpcoming_core s env c
  exact ⟨⟨h1.2.1, h1.2.2.2.2.2.2.2.1, h1.1, h1.2.2.2.2.2.2.1, h1.2.2.1,
      h1.2.2.2.1, h1.2.2.2.2.1⟩,
    ⟨h2.2.1, h2.2.2.2.2.2.2.2.1, h2.1, h2.2.2.2.2.2.2.1, h2.2.2.1,
      h2.2.2.2.1, h2.2.2.2.2.1⟩⟩

/-- Claim C10: `loadChunk` is atomic on failure: whenever it returns an error
(uninitialized, index out of range, or resolution/download failure) the
`currentChunk` field is unchanged and no `onChunkChange` event is fired;
`currentChunk` is assigned (and `onChunkChange` fired) exactly when a
playable URL for the requested chunk has been obtained. -/
theorem claim_C10 (s : StreamerState) (env : Env) (chunkIndex : Int) :
    (∀ e : StreamErr, (loadChunk s env chunkIndex).2.2 = .error e →
      (loadChunk s env chunkIndex).1.currentChunk = s.currentChunk ∧
      (loadChunk s env chunkIndex).2.1 = []) ∧
    (∀ u : String, (loadChunk s env chunkIndex).2.2 = .ok u →
      (loadChunk s env chunkIndex).1.currentChunk = chunkIndex.toNat ∧
      (loadChunk s env chunkIndex).2.1 = [.chunkChange chunkIndex.toNat]) := by
  rcases hl : loadChunk s env chunkIndex with ⟨s1, evs, r⟩
  constructor
  · intro e he
    have hr : r = .error e := he
    subst hr
    have := loadChunk_error_shape s env chunkIndex s1 evs e hl
    exact ⟨this.1, this.2⟩
  · intro u hu
    have hr : r = .ok u := hu
    subst hr
    have := loadChunk_ok_shape s env chunkIndex s1 evs u hl
    exact ⟨this.1, this.2⟩

theorem claim_C10_witness :
    (loadChunk sBlank envFail 0).1.currentChunk = sBlank.currentChunk ∧
    (loadChunk sBlank envFail 0).2.1 = [] :=
  (claim_C10 sBlank envFail 0).1 .notInitialized rfl
end Evocable
